import Mathlib

/-! Verification of the hl_trading_bot repository: a shallow embedding of
stream.py (Window, LogReturn), models.py (LinReg), strategy.py
(BasicTakerStrat) and main.py (create_model, interval_mins, the timing
computation of trade_periodically, and the reconnect loop formed by
connect_and_listen and main), together with theorems checking the
specification's claims against these definitions.

Conventions: Python float values are modelled as exact rationals; the finite
values of numpy's transcendental log are abstracted by a parameter
lnf : Rat -> Rat standing for the finite-precision natural logarithm (only
non-finiteness and the argument of the log matter to the claims, and ln is
injective on positive arguments, so carrying the argument loses nothing);
fallible Python code is modelled in Except, the string naming the Python
exception class raised. -/

/-- Python exception values, identified by the exception class name. -/
abbrev PyErr := String

/-- A dynamically typed Python value: the embedding distinguishes the ints
that the declared return type of interval_mins promises from the strings the
function actually produces. -/
inductive PyVal where
  | int (n : ℤ)
  | str (s : List Char)
  deriving DecidableEq

/-- Python string repetition: s * n is the concatenation of n copies of s. -/
def strRepeat (s : List Char) : ℕ → List Char
  | 0 => []
  | n + 1 => s ++ strRepeat s n

/-- main.py interval_mins (lines 67-88): dur = interval[-1] raises IndexError
on an empty string; on 'h' the function evaluates interval[:-1] * 60, on 'm'
interval[:-1], and on 'd' interval[:-1] * 24 * 60 -- but interval[:-1] is a
string slice, so * is Python string repetition, not numeric multiplication;
any other final character raises ValueError. -/
def interval_mins (interval : List Char) : Except PyErr PyVal :=
  match interval.getLast? with
  | none => Except.error "IndexError"
  | some dur =>
    if dur = 'h' then Except.ok (PyVal.str (strRepeat interval.dropLast 60))
    else if dur = 'm' then Except.ok (PyVal.str interval.dropLast)
    else if dur = 'd' then Except.ok (PyVal.str (strRepeat (strRepeat interval.dropLast 24) 60))
    else Except.error "ValueError"

/-- The timing computation of one iteration of main.py trade_periodically
(lines 102-117), given the numeric period: period_mins = max(1, no_mins);
mins_past = now.minute % period_mins; seconds_until_next =
(period_mins - mins_past) * 60 - now.second - now.microsecond / 1_000_000.0. -/
def seconds_until_next (noMins : ℤ) (minute second microsecond : ℕ) : ℚ :=
  ((max 1 noMins - (minute : ℤ) % max 1 noMins : ℤ) : ℚ) * 60
    - (second : ℚ) - (microsecond : ℚ) / 1000000

/-- The argument passed to asyncio.sleep in trade_periodically (line 120):
seconds_until_next plus the 0.0001 buffer. -/
def sleep_seconds (noMins : ℤ) (minute second microsecond : ℕ) : ℚ :=
  seconds_until_next noMins minute second microsecond + 1 / 10000

/-- stream.py Window: a deque with the given maxlen. The list is ordered
oldest first; deque.append adds at the tail and deque.popleft removes the
head, as in the source. -/
structure Window where
  maxlen : ℕ
  data : List ℚ
  deriving DecidableEq

/-- stream.py Window.is_full: len(self.data) == self.data.maxlen. -/
def Window.is_full (w : Window) : Bool :=
  w.data.length == w.maxlen

/-- stream.py Window.on_tick: if the window is full, popleft the oldest
element and return it, after appending the new element; otherwise append and
return None. popleft on an empty deque (only possible here when maxlen = 0)
raises IndexError, leaving the deque unchanged. -/
def Window.on_tick (w : Window) (elem : ℚ) : Except PyErr (Option ℚ) × Window :=
  if w.is_full then
    match w.data with
    | [] => (Except.error "IndexError", w)
    | old :: rest => (Except.ok (some old), ⟨w.maxlen, rest ++ [elem]⟩)
  else (Except.ok none, ⟨w.maxlen, w.data ++ [elem]⟩)

/-- A freshly constructed Window(window_size). -/
def Window.empty (n : ℕ) : Window := ⟨n, []⟩

/-- Feeding a sequence of elements into a window one push at a time,
discarding the per-push results. -/
def Window.feed (w : Window) : List ℚ → Window
  | [] => w
  | p :: ps => Window.feed (w.on_tick p).2 ps

/-- The value domain of the float pipeline: a finite float (modelled as an
exact rational), one of the two infinities, or nan. -/
inductive FloatVal where
  | fin (q : ℚ)
  | pinf
  | ninf
  | nan
  deriving DecidableEq

/-- numpy.log on a float argument x: for x > 0 a finite value ln x, modelled
through the parameter lnf standing for the finite-precision natural log;
np.log(0.0) evaluates to -inf and np.log of a negative float to nan (numpy
emits a RuntimeWarning in those cases but returns the value, it does not
raise). -/
def npLog (lnf : ℚ → ℚ) (x : ℚ) : FloatVal :=
  if 0 < x then FloatVal.fin (lnf x) else if x = 0 then FloatVal.ninf else FloatVal.nan

/-- stream.py LogReturn: holds the window self.price. -/
structure LogReturn where
  price : Window
  deriving DecidableEq

/-- The LogReturn() constructor: self.price = Window(2). -/
def LogReturn.init : LogReturn := ⟨Window.empty 2⟩

/-- stream.py LogReturn.on_tick (lines 64-70): push the price (the push
happens first, so the window state advances even when the later division
raises); if the window is full after the push, return
np.log(self.price.data[1] / self.price.data[0]); indexing out of range raises
IndexError, and the float division raises ZeroDivisionError when data[0] is
0. -/
def LogReturn.on_tick (lnf : ℚ → ℚ) (s : LogReturn) (p : ℚ) :
    Except PyErr (Option FloatVal) × LogReturn :=
  match s.price.on_tick p with
  | (Except.error e, w) => (Except.error e, ⟨w⟩)
  | (Except.ok _, w) =>
    (if w.is_full then
      match w.data[1]? with
      | none => Except.error "IndexError"
      | some newest =>
        match w.data[0]? with
        | none => Except.error "IndexError"
        | some oldest =>
          if oldest = 0 then Except.error "ZeroDivisionError"
          else Except.ok (some (npLog lnf (newest / oldest)))
    else Except.ok none, ⟨w⟩)

/-- The warm-up loop of main.py create_strategy (lines 62-63): feed the
prices one by one, discarding the results. The window state advances on every
push even for a tick whose division reported an error, since the push
precedes the division (in Python such a tick would also abort the loop; feed
is used below only with histories whose non-final ticks do not raise). -/
def LogReturn.feed (lnf : ℚ → ℚ) (s : LogReturn) : List ℚ → LogReturn
  | [] => s
  | p :: ps => LogReturn.feed lnf (s.on_tick lnf p).2 ps

/-- models.py LinReg: weights and bias. The configured model weight is a
single number, so the weight vector is modelled as a scalar. -/
structure LinReg where
  weights : ℚ
  bias : ℚ
  deriving DecidableEq

/-- Multiplication of a float value by a finite float constant, with the IEEE
rules for the non-finite cases (an infinity times 0 is nan). -/
def FloatVal.mulConst (v : FloatVal) (c : ℚ) : FloatVal :=
  match v with
  | FloatVal.fin q => FloatVal.fin (q * c)
  | FloatVal.pinf => if 0 < c then FloatVal.pinf else if c < 0 then FloatVal.ninf else FloatVal.nan
  | FloatVal.ninf => if 0 < c then FloatVal.ninf else if c < 0 then FloatVal.pinf else FloatVal.nan
  | FloatVal.nan => FloatVal.nan

/-- Addition of a finite float constant to a float value. -/
def FloatVal.addConst (v : FloatVal) (c : ℚ) : FloatVal :=
  match v with
  | FloatVal.fin q => FloatVal.fin (q + c)
  | FloatVal.pinf => FloatVal.pinf
  | FloatVal.ninf => FloatVal.ninf
  | FloatVal.nan => FloatVal.nan

/-- models.py LinReg.predict (lines 15-35): np.dot(x, self.weights) +
self.bias. The feature x is optional: when it is None (the feature engine has
not warmed up), numpy's dot falls back to object arithmetic and evaluates
None * weight, which raises TypeError; there is no explicit None check in the
source. -/
def LinReg.predict (m : LinReg) (x : Option FloatVal) : Except PyErr FloatVal :=
  match x with
  | none => Except.error "TypeError"
  | some v => Except.ok ((v.mulConst m.weights).addConst m.bias)

/-- The model section of the settings params, as read by main.py: a weight
entry and a bias entry (settings.py itself is not part of src; the
configuration carries model weight and bias per the specification). -/
structure ModelConfig where
  weight : ℚ
  bias : ℚ
  deriving DecidableEq

/-- main.py create_model (lines 17-22): weights = model_params['weight'];
bias = model_params['weight']. The 'weight' entry is read for both fields and
the configured bias entry is never read. -/
def create_model (cfg : ModelConfig) : LinReg :=
  LinReg.mk cfg.weight cfg.weight

/-- strategy.py Order dataclass. -/
structure Order where
  coin : String
  sz : ℚ
  is_buy : Bool
  deriving DecidableEq

/-- numpy.sign: 1.0, 0.0 or -1.0 on finite floats, the signs of the
infinities, and nan on nan. -/
def npSign (v : FloatVal) : FloatVal :=
  match v with
  | FloatVal.fin q =>
    if 0 < q then FloatVal.fin 1 else if q < 0 then FloatVal.fin (-1) else FloatVal.fin 0
  | FloatVal.pinf => FloatVal.fin 1
  | FloatVal.ninf => FloatVal.fin (-1)
  | FloatVal.nan => FloatVal.nan

/-- strategy.py BasicTakerStrat state. The exchange client is supplied
separately, as an ExchangeBehavior, at each execute call. -/
structure BasicTakerStrat where
  coin : String
  model : LinReg
  sz : ℚ
  lag : LogReturn
  leverage : ℚ
  deriving DecidableEq

/-- strategy.py BasicTakerStrat.strategy (lines 102-104):
is_buy = (np.sign(y_hat) == 1). Float equality against 1.0 holds exactly when
the sign is the finite value 1; nan == 1 is false. -/
def BasicTakerStrat.strategy (st : BasicTakerStrat) (y_hat : FloatVal) : Order :=
  { coin := st.coin, sz := st.sz, is_buy := decide (npSign y_hat = FloatVal.fin 1) }

/-- One call made on the exchange client by execute. -/
inductive ExchCall where
  | market_close (coin : String)
  | market_open (coin : String) (is_buy : Bool) (sz : ℚ)
  deriving DecidableEq

/-- The behaviour of the external exchange client during one execute call:
what each of the two methods does if invoked (return a response or raise an
exception). -/
structure ExchangeBehavior where
  closeRes : Except PyErr String
  openRes : Except PyErr String

/-- What execute printed about each of its two sub-operations. -/
inductive ExecReport where
  | closed (r : String)
  | closeFailed (e : PyErr)
  | opened (r : String)
  | openFailed (e : PyErr)
  deriving DecidableEq

/-- A Python try/except Exception block whose handler only prints: the body's
result is reported on success and the caught exception is reported on
failure; in both cases control continues after the block. -/
def pyTryExcept (body : Except PyErr ExecReport) (handler : PyErr → ExecReport) : ExecReport :=
  match body with
  | Except.ok r => r
  | Except.error e => handler e

/-- strategy.py BasicTakerStrat.execute (lines 106-128): market_close inside
its own try/except (the except block only prints, so every exception from the
close is caught there), then market_open inside its own try/except, likewise.
Both calls are therefore attempted, in this order, on every invocation, and
execute always returns normally. The result components are (outcome, the
exchange calls attempted in order, the per-step reports). -/
def BasicTakerStrat.execute (st : BasicTakerStrat) (ex : ExchangeBehavior) (o : Order) :
    Except PyErr Unit × List ExchCall × List ExecReport :=
  let closeReport : ExecReport :=
    pyTryExcept (ex.closeRes.map ExecReport.closed) ExecReport.closeFailed
  let openReport : ExecReport :=
    pyTryExcept (ex.openRes.map ExecReport.opened) ExecReport.openFailed
  (Except.ok (),
   [ExchCall.market_close st.coin, ExchCall.market_open st.coin o.is_buy o.sz],
   [closeReport, openReport])

/-- strategy.py BasicTakerStrat.on_tick (lines 130-171): compute the lag
feature, predict, build the order, execute it. An exception raised by any
stage propagates (there is no try/except at this level), in which case no
later stage runs and no exchange call is made; on success the function itself
returns None (it has no return statement). The result components are
(outcome, exchange calls made, updated strategy state). -/
def BasicTakerStrat.on_tick (lnf : ℚ → ℚ) (ex : ExchangeBehavior)
    (st : BasicTakerStrat) (price : ℚ) :
    Except PyErr Unit × List ExchCall × BasicTakerStrat :=
  match st.lag.on_tick lnf price with
  | (Except.error e, lag2) => (Except.error e, [], { st with lag := lag2 })
  | (Except.ok lagv, lag2) =>
    let st2 : BasicTakerStrat := { st with lag := lag2 }
    match st2.model.predict lagv with
    | Except.error e => (Except.error e, [], st2)
    | Except.ok y_hat =>
      let order := st2.strategy y_hat
      let res := st2.execute ex order
      (res.1, res.2.1, st2)

/-- Phase of the main.py supervision loop: listening covers the body of
connect_and_listen; down covers everything else inside main's while True loop
(before the first connect, and after the finally block of connect_and_listen
has run, including the backoff sleep). -/
inductive ConnPhase where
  | listening
  | down
  deriving DecidableEq

/-- Abstract state of main.py's reconnect loop: the live trade_periodically
tasks (spawned and not yet cancelled), identified by creation order, plus the
handle connect_and_listen holds on the task it spawned and the next task
identifier. -/
structure NetState where
  phase : ConnPhase
  timers : List ℕ
  cur : Option ℕ
  nextId : ℕ
  deriving DecidableEq

/-- Observable events of the reconnect loop. -/
inductive NetLbl where
  | connect
  | fire (t : ℕ)
  | disconnect
  | backoff
  deriving DecidableEq

/-- Transitions of main.py's reconnect loop (lines 136-205). connect: a call
to connect_and_listen spawns a timer task as its first statement (line 144)
and enters the websocket block. fire: a live timer task fires; the task is a
sibling of the receive loop, so firing is gated only on the task being live,
i.e. spawned and not cancelled -- after cancel() the pending sleep is
interrupted by CancelledError, so a cancelled task can never fire again.
disconnect: connect_and_listen exits, by clean close or by exception, and its
finally block (line 170) cancels exactly the task it spawned. backoff: the
await asyncio.sleep(backoff) in main (line 202) and the loop back to the next
connect. -/
inductive NetStep : NetState → NetLbl → NetState → Prop where
  | connect (ts : List ℕ) (c : Option ℕ) (n : ℕ) :
      NetStep ⟨ConnPhase.down, ts, c, n⟩ NetLbl.connect
        ⟨ConnPhase.listening, ts ++ [n], some n, n + 1⟩
  | fire (ph : ConnPhase) (ts : List ℕ) (c : Option ℕ) (n t : ℕ) (h : t ∈ ts) :
      NetStep ⟨ph, ts, c, n⟩ (NetLbl.fire t) ⟨ph, ts, c, n⟩
  | disconnect (ts : List ℕ) (n t : ℕ) :
      NetStep ⟨ConnPhase.listening, ts, some t, n⟩ NetLbl.disconnect
        ⟨ConnPhase.down, ts.erase t, none, n⟩
  | backoff (ts : List ℕ) (c : Option ℕ) (n : ℕ) :
      NetStep ⟨ConnPhase.down, ts, c, n⟩ NetLbl.backoff ⟨ConnPhase.down, ts, c, n⟩

/-- The state in which main enters its while True loop: no timer exists. -/
def NetState.init : NetState := ⟨ConnPhase.down, [], none, 0⟩

/-- The states the reconnect loop can reach. -/
inductive NetReachable : NetState → Prop where
  | init : NetReachable NetState.init
  | step (s : NetState) (l : NetLbl) (s2 : NetState) :
      NetReachable s → NetStep s l s2 → NetReachable s2

/-- A concrete instantiation of the log parameter, used by closed concrete
statements (their truth never depends on the finite log values). -/
def lnZero : ℚ → ℚ := fun _ => 0

/-- A concrete strategy state as built by main.py create_strategy: coin and
trade size from the configuration, a freshly warmed model and a fresh
LogReturn (trade_sz = 0.0002 = 1/5000 in the source). -/
def sampleStrat : BasicTakerStrat :=
  { coin := "BTC", model := LinReg.mk 1 1, sz := 1 / 5000, lag := LogReturn.init, leverage := 1 }

/-- A concrete exchange behaviour on which both calls succeed. -/
def sampleExchange : ExchangeBehavior :=
  { closeRes := Except.ok "closed", openRes := Except.ok "opened" }

/-! Helper lemmas about the window and the feature engine. -/

/-- One push preserves maxlen and keeps the held count within maxlen. -/
theorem Window.on_tick_inv (w : Window) (p : ℚ) (h : w.data.length ≤ w.maxlen) :
    ((w.on_tick p).2).maxlen = w.maxlen ∧ ((w.on_tick p).2).data.length ≤ w.maxlen := by
  unfold Window.on_tick
  by_cases hfull : w.is_full = true
  · have hlen : w.data.length = w.maxlen := by
      simpa [Window.is_full] using hfull
    rw [if_pos hfull]
    cases hdata : w.data with
    | nil =>
      refine ⟨rfl, ?_⟩
      dsimp only
      exact h
    | cons a rest =>
      refine ⟨rfl, ?_⟩
      have h1 : rest.length + 1 = w.maxlen := by
        rw [← hlen, hdata, List.length_cons]
      simp only [List.length_append, List.length_cons, List.length_nil]
      omega
  · have hlen : w.data.length ≠ w.maxlen := by
      simpa [Window.is_full] using hfull
    rw [if_neg hfull]
    refine ⟨rfl, ?_⟩
    simp only [List.length_append, List.length_cons, List.length_nil]
    omega

/-- Feeding any sequence preserves maxlen and the bound on the held count. -/
theorem Window.feed_inv (ps : List ℚ) : ∀ (w : Window), w.data.length ≤ w.maxlen →
    (w.feed ps).maxlen = w.maxlen ∧ (w.feed ps).data.length ≤ w.maxlen := by
  induction ps with
  | nil => exact fun w h => ⟨rfl, h⟩
  | cons p t ih =>
    intro w h
    have hstep := Window.on_tick_inv w p h
    have ih2 := ih (w.on_tick p).2 (by rw [hstep.1]; exact hstep.2)
    refine ⟨?_, ?_⟩
    · calc (w.feed (p :: t)).maxlen = ((w.on_tick p).2.feed t).maxlen := rfl
        _ = (w.on_tick p).2.maxlen := ih2.1
        _ = w.maxlen := hstep.1
    · calc (w.feed (p :: t)).data.length = ((w.on_tick p).2.feed t).data.length := rfl
        _ ≤ (w.on_tick p).2.maxlen := ih2.2
        _ = w.maxlen := hstep.1

/-- Whenever maxlen is at least 1 and the invariant holds, a push appends the
new element at the tail. -/
theorem Window.on_tick_push_last (w : Window) (p : ℚ) (hm : 1 ≤ w.maxlen)
    (h : w.data.length ≤ w.maxlen) :
    ∃ pre, ((w.on_tick p).2).data = pre ++ [p] := by
  unfold Window.on_tick
  by_cases hfull : w.is_full = true
  · have hlen : w.data.length = w.maxlen := by
      simpa [Window.is_full] using hfull
    rw [if_pos hfull]
    cases hdata : w.data with
    | nil =>
      exfalso
      rw [hdata] at hlen
      simp at hlen
      omega
    | cons a rest => exact ⟨rest, rfl⟩
  · rw [if_neg hfull]; exact ⟨w.data, rfl⟩

/-- Feeding a concatenation feeds the pieces in order. -/
theorem Window.feed_append (w : Window) (ps qs : List ℚ) :
    w.feed (ps ++ qs) = (w.feed ps).feed qs := by
  induction ps generalizing w with
  | nil => rfl
  | cons a t ih =>
    show ((w.on_tick a).2).feed (t ++ qs) = _
    exact ih (w.on_tick a).2

/-- After feeding a history ending in x, the window's data ends in x. -/
theorem Window.feed_concat (w : Window) (qs : List ℚ) (x : ℚ)
    (hm : 1 ≤ w.maxlen) (h : w.data.length ≤ w.maxlen) :
    ∃ pre, (w.feed (qs ++ [x])).data = pre ++ [x] := by
  rw [Window.feed_append]
  have hinv := Window.feed_inv qs w h
  have hm2 : 1 ≤ (w.feed qs).maxlen := by rw [hinv.1]; exact hm
  have h2 : (w.feed qs).data.length ≤ (w.feed qs).maxlen := by rw [hinv.1]; exact hinv.2
  exact Window.on_tick_push_last (w.feed qs) x hm2 h2

/-- A capacity-2 window that has absorbed a history ending in x holds either
just x or some earlier value followed by x. -/
theorem window_shape_after_concat (qs : List ℚ) (x : ℚ) :
    ((Window.empty 2).feed (qs ++ [x])).data = [x]
    ∨ ∃ y, ((Window.empty 2).feed (qs ++ [x])).data = [y, x] := by
  have hinv := Window.feed_inv (qs ++ [x]) (Window.empty 2) (by simp [Window.empty])
  obtain ⟨pre, hpre⟩ :=
    Window.feed_concat (Window.empty 2) qs x (by simp [Window.empty]) (by simp [Window.empty])
  have hlen : (pre ++ [x]).length ≤ 2 := by
    rw [← hpre]
    simpa [Window.empty] using hinv.2
  rcases pre with _ | ⟨y, pre2⟩
  · left; simpa using hpre
  · rcases pre2 with _ | ⟨z, pre3⟩
    · right; exact ⟨y, by simpa using hpre⟩
    · exfalso
      simp only [List.length_append, List.length_cons, List.length_nil] at hlen
      omega

/-- The state component of LogReturn.on_tick is the pushed window. -/
theorem LogReturn.on_tick_price (lnf : ℚ → ℚ) (s : LogReturn) (p : ℚ) :
    ((s.on_tick lnf p).2).price = (s.price.on_tick p).2 := by
  unfold LogReturn.on_tick
  rcases h : s.price.on_tick p with ⟨r, w⟩
  rcases r with e | v <;> simp [h]

/-- Feeding the feature engine feeds its window. -/
theorem LogReturn.feed_price (lnf : ℚ → ℚ) (ps : List ℚ) : ∀ (s : LogReturn),
    (LogReturn.feed lnf s ps).price = s.price.feed ps := by
  induction ps with
  | nil => exact fun s => rfl
  | cons p t ih =>
    intro s
    show (LogReturn.feed lnf (s.on_tick lnf p).2 t).price = Window.feed (s.price.on_tick p).2 t
    rw [ih (s.on_tick lnf p).2, LogReturn.on_tick_price]

/-- A tick on a warmed-up engine (window holding x, or y then x) divides the
new price by x: it raises ZeroDivisionError when x is 0 and otherwise returns
the log of the ratio. -/
theorem LogReturn.on_tick_ready (lnf : ℚ → ℚ) (s : LogReturn) (p L : ℚ)
    (hm : s.price.maxlen = 2)
    (hd : s.price.data = [L] ∨ ∃ y, s.price.data = [y, L]) :
    (s.on_tick lnf p).1 =
      if L = 0 then Except.error "ZeroDivisionError"
      else Except.ok (some (npLog lnf (p / L))) := by
  rcases s with ⟨⟨ml, d⟩⟩
  obtain rfl : ml = 2 := hm
  rcases hd with hd | ⟨y, hd⟩
  · obtain rfl : d = [L] := hd
    rfl
  · obtain rfl : d = [y, L] := hd
    rfl

/-- A tick on a fresh (empty) engine pushes the price and returns None. -/
theorem LogReturn.on_tick_not_ready (lnf : ℚ → ℚ) (s : LogReturn) (p : ℚ)
    (hm : s.price.maxlen = 2) (hd : s.price.data = []) :
    s.on_tick lnf p = (Except.ok none, LogReturn.mk (Window.mk 2 [p])) := by
  rcases s with ⟨⟨ml, d⟩⟩
  obtain rfl : ml = 2 := hm
  obtain rfl : d = [] := hd
  rfl

/-- Every reachable state of the reconnect loop satisfies: no live timer and
no held handle while down; exactly one live timer, the one the held handle
points to, while listening. -/
theorem netReachable_inv (s : NetState) (h : NetReachable s) :
    (s.phase = ConnPhase.down → s.timers = [] ∧ s.cur = none)
  ∧ (s.phase = ConnPhase.listening → ∃ e, s.timers = [e] ∧ s.cur = some e) := by
  induction h with
  | init => exact ⟨fun _ => ⟨rfl, rfl⟩, fun hp => ConnPhase.noConfusion hp⟩
  | step s l s2 hr hstep ih =>
    cases hstep with
    | connect ts c n =>
      obtain ⟨hts, hc⟩ := ih.1 rfl
      have hts2 : ts = [] := hts
      constructor
      · intro hp
        exact ConnPhase.noConfusion hp
      · intro _
        subst hts2
        exact ⟨n, rfl, rfl⟩
    | fire ph ts c n t ht => exact ih
    | disconnect ts n t =>
      obtain ⟨e, hts, hce⟩ := ih.2 rfl
      have hts2 : ts = [e] := hts
      have hce2 : some t = some e := hce
      obtain rfl : t = e := Option.some.inj hce2
      constructor
      · intro _
        refine ⟨?_, rfl⟩
        show ts.erase t = []
        rw [hts2]
        simp
      · intro hp
        exact ConnPhase.noConfusion hp
    | backoff ts c n => exact ih

/-- A fire step on a timer requires that timer to be live. -/
theorem NetStep.fire_mem {s : NetState} {t : ℕ} {s2 : NetState}
    (h : NetStep s (NetLbl.fire t) s2) : t ∈ s.timers := by
  cases h
  assumption

/-! The claims. -/

set_option maxRecDepth 4000 in
/-- Claim C1 (code_bug evaluation): interval_mins does not return the numeric
prefix times 60 for '1h'; it returns the string "1" repeated 60 times, and
for '15m' it returns the string "15", not a number, because the slice
interval[:-1] is never converted to int. A trailing character other than
m/h/d raises ValueError. -/
theorem interval_mins_string_repetition :
    interval_mins ['1', 'h'] = Except.ok (PyVal.str (List.replicate 60 '1'))
  ∧ interval_mins ['1', '5', 'm'] = Except.ok (PyVal.str ['1', '5'])
  ∧ interval_mins ['1', 'h'] ≠ Except.ok (PyVal.int 60)
  ∧ interval_mins ['2', 'x'] = Except.error "ValueError" := by
  refine ⟨rfl, rfl, ?_, rfl⟩
  intro hcontra
  have h2 : (Except.ok (PyVal.str (List.replicate 60 '1')) : Except PyErr PyVal)
      = Except.ok (PyVal.int 60) := hcontra
  have h3 : PyVal.str (List.replicate 60 '1') = PyVal.int 60 := by
    injection h2 with hinj
  exact PyVal.noConfusion h3

/-- Claim C2: on a tick for which the feature value is absent (the engine's
window was empty, so this tick is the first observation and the window is not
full after the push), the predictor raises instead of returning a number, and
no exchange call (neither market_close nor market_open) is made. -/
theorem predictor_absent_feature_no_execution (lnf : ℚ → ℚ) (ex : ExchangeBehavior)
    (st : BasicTakerStrat) (price : ℚ)
    (hm : st.lag.price.maxlen = 2) (hd : st.lag.price.data = []) :
    (BasicTakerStrat.on_tick lnf ex st price).1 = Except.error "TypeError"
  ∧ (BasicTakerStrat.on_tick lnf ex st price).2.1 = [] := by
  have hl := LogReturn.on_tick_not_ready lnf st.lag price hm hd
  unfold BasicTakerStrat.on_tick
  rw [hl]
  exact ⟨rfl, rfl⟩

/-- Witness for C2 at a concrete fresh strategy and price. -/
theorem predictor_absent_feature_no_execution_witness :
    sampleStrat.lag.price.maxlen = 2 ∧ sampleStrat.lag.price.data = []
  ∧ (BasicTakerStrat.on_tick lnZero sampleExchange sampleStrat 100).1 = Except.error "TypeError"
  ∧ (BasicTakerStrat.on_tick lnZero sampleExchange sampleStrat 100).2.1 = [] :=
  ⟨rfl, rfl,
    (predictor_absent_feature_no_execution lnZero sampleExchange sampleStrat 100 rfl rfl).1,
    (predictor_absent_feature_no_execution lnZero sampleExchange sampleStrat 100 rfl rfl).2⟩

/-- Claim C3 (counterexample): a forecast of exactly 0 does not produce an
absent order intent; the decision step returns a concrete sell order
(is_buy = false), because np.sign(0) == 1 is false and the code has no
no-trade branch -- its return type always carries an order. -/
theorem zero_forecast_yields_sell_order :
    sampleStrat.strategy (FloatVal.fin 0)
      = { coin := "BTC", sz := 1 / 5000, is_buy := false } := rfl

/-- Claim C3 (amended): the decision step maps a forecast of +0.01 to a buy
order and -0.01 to a sell order, and a forecast of exactly 0 to a sell order
(is_buy = false) rather than to an absent no-trade intent. -/
theorem decision_policy_sign_mapping (st : BasicTakerStrat) :
    (st.strategy (FloatVal.fin (1 / 100))).is_buy = true
  ∧ (st.strategy (FloatVal.fin (-1 / 100))).is_buy = false
  ∧ st.strategy (FloatVal.fin 0) = { coin := st.coin, sz := st.sz, is_buy := false } := by
  have h1 : npSign (FloatVal.fin (1 / 100)) = FloatVal.fin 1 := by
    show (if (0 : ℚ) < 1 / 100 then FloatVal.fin 1
      else if (1 / 100 : ℚ) < 0 then FloatVal.fin (-1) else FloatVal.fin 0) = FloatVal.fin 1
    rw [if_pos (by norm_num : (0 : ℚ) < 1 / 100)]
  have h2 : npSign (FloatVal.fin (-1 / 100)) = FloatVal.fin (-1) := by
    show (if (0 : ℚ) < -1 / 100 then FloatVal.fin 1
      else if (-1 / 100 : ℚ) < 0 then FloatVal.fin (-1) else FloatVal.fin 0) = FloatVal.fin (-1)
    rw [if_neg (by norm_num : ¬ (0 : ℚ) < -1 / 100),
      if_pos (by norm_num : (-1 / 100 : ℚ) < 0)]
  refine ⟨?_, ?_, ?_⟩
  · show decide (npSign (FloatVal.fin (1 / 100)) = FloatVal.fin 1) = true
    rw [h1]
    decide
  · show decide (npSign (FloatVal.fin (-1 / 100)) = FloatVal.fin 1) = false
    rw [h2]
    decide
  · unfold BasicTakerStrat.strategy
    have h3 : decide (npSign (FloatVal.fin 0) = FloatVal.fin 1) = false := by decide
    rw [h3]

/-- Claim C4 (counterexample): feeding the prices 100 then 0, the second tick
does not raise; it returns -inf (np.log of the ratio 0/100) as the feature
value, a non-finite value handed on to the caller. -/
theorem feeding_100_then_0_returns_ninf :
    ((LogReturn.feed lnZero LogReturn.init [100]).on_tick lnZero 0).1
      = Except.ok (some FloatVal.ninf) := by
  have hstate : LogReturn.feed lnZero LogReturn.init [100]
      = LogReturn.mk (Window.mk 2 [100]) := rfl
  rw [hstate,
    LogReturn.on_tick_ready lnZero (LogReturn.mk (Window.mk 2 [100])) 0 100 rfl (Or.inl rfl),
    if_neg (by norm_num : (100 : ℚ) ≠ 0)]
  norm_num [npLog]

/-- Claim C4 (amended): when the oldest of the two prices held after the push
is 0 -- that is, the price pushed immediately before the current tick was
0 -- the division in the feature computation raises ZeroDivisionError, a
computation error, rather than returning a non-finite value. (Feeding
[100, 0], by contrast, makes 0 the newest price and returns -inf without
raising.) -/
theorem oldest_zero_raises_zero_division (lnf : ℚ → ℚ) (s : LogReturn) (p : ℚ)
    (hm : s.price.maxlen = 2)
    (hd : s.price.data = [0] ∨ ∃ y, s.price.data = [y, 0]) :
    (s.on_tick lnf p).1 = Except.error "ZeroDivisionError" := by
  rw [LogReturn.on_tick_ready lnf s p 0 hm hd, if_pos rfl]

/-- Witness for C4's amended theorem at a concrete engine state. -/
theorem oldest_zero_raises_zero_division_witness :
    (LogReturn.mk (Window.mk 2 [0])).price.maxlen = 2
  ∧ ((LogReturn.mk (Window.mk 2 [0])).price.data = [0]
      ∨ ∃ y, (LogReturn.mk (Window.mk 2 [0])).price.data = [y, 0])
  ∧ ((LogReturn.mk (Window.mk 2 [0])).on_tick lnZero 110).1
      = Except.error "ZeroDivisionError" :=
  ⟨rfl, Or.inl rfl,
    oldest_zero_raises_zero_division lnZero (LogReturn.mk (Window.mk 2 [0])) 110 rfl (Or.inl rfl)⟩

/-- Claim C5: in every reachable state of the reconnect loop there is at most
one live timer task, and while the connection is down (after a disconnect has
cancelled the epoch's timer, before the next connect) no timer firing step is
possible at all. -/
theorem single_timer_per_epoch (s : NetState) (h : NetReachable s) :
    s.timers.length ≤ 1
  ∧ (s.phase = ConnPhase.down →
      ∀ (t : ℕ) (s2 : NetState), ¬ NetStep s (NetLbl.fire t) s2) := by
  have hi := netReachable_inv s h
  constructor
  · cases hp : s.phase with
    | listening =>
      obtain ⟨e, hts, _⟩ := hi.2 hp
      rw [hts]
      exact le_refl 1
    | down =>
      rw [(hi.1 hp).1]
      exact Nat.zero_le 1
  · intro hp t s2 hstep
    have hmem : t ∈ s.timers := NetStep.fire_mem hstep
    rw [(hi.1 hp).1] at hmem
    exact List.not_mem_nil t hmem

/-- Witness for C5 at the initial state. -/
theorem single_timer_per_epoch_witness :
    NetReachable NetState.init
  ∧ NetState.init.timers.length ≤ 1
  ∧ (NetState.init.phase = ConnPhase.down →
      ∀ (t : ℕ) (s2 : NetState), ¬ NetStep NetState.init (NetLbl.fire t) s2) :=
  ⟨NetReachable.init,
    (single_timer_per_epoch NetState.init NetReachable.init).1,
    (single_timer_per_epoch NetState.init NetReachable.init).2⟩

/-- Claim C6: for a period of P minutes (P at least 1, as guaranteed by the
max(1, ...) guard) and wall-clock time with the given minute, second and
microsecond, the scheduler sleeps for
(P - minute mod P) * 60 - second - microsecond/1e6 plus the 0.0001 epsilon. -/
theorem scheduler_sleep_formula (P : ℤ) (minute second microsecond : ℕ) (hP : 1 ≤ P) :
    sleep_seconds P minute second microsecond
      = ((P - (minute : ℤ) % P : ℤ) : ℚ) * 60 - (second : ℚ)
        - (microsecond : ℚ) / 1000000 + 1 / 10000 := by
  unfold sleep_seconds seconds_until_next
  rw [max_eq_right hP]

/-- Witness for C6: with a 60-minute period at 10:37:45.000000 UTC the
computed wait is 1335.0001 seconds. -/
theorem scheduler_sleep_formula_witness :
    (1 : ℤ) ≤ 60 ∧ sleep_seconds 60 37 45 0 = 13350001 / 10000 := by
  refine ⟨by norm_num, ?_⟩
  rw [scheduler_sleep_formula 60 37 45 0 (by norm_num)]
  norm_num

/-- Claim C7: a window of capacity N (N at least 1) never holds more than N
elements after any input sequence; a push on a window already holding N
elements returns the chronologically oldest element (the head) and appends
the new one after dropping it, and a push on a window holding fewer than N
elements appends and returns None. -/
theorem window_capacity_and_eviction (N : ℕ) (hN : 1 ≤ N) (ps : List ℚ)
    (w : Window) (p : ℚ) (hm : w.maxlen = N) :
    ((Window.empty N).feed ps).data.length ≤ N
  ∧ (w.data.length = N →
      (w.on_tick p).1 = Except.ok w.data.head?
      ∧ ((w.on_tick p).2).data = w.data.tail ++ [p])
  ∧ (w.data.length < N →
      (w.on_tick p).1 = Except.ok none
      ∧ ((w.on_tick p).2).data = w.data ++ [p]) := by
  refine ⟨?_, ?_, ?_⟩
  · have hfe := Window.feed_inv ps (Window.empty N) (by simp [Window.empty])
    simpa [Window.empty] using hfe.2
  · intro hfull
    have hf : w.is_full = true := by simp [Window.is_full, hm, hfull]
    unfold Window.on_tick
    rw [if_pos hf]
    cases hdata : w.data with
    | nil =>
      exfalso
      rw [hdata] at hfull
      simp at hfull
      omega
    | cons a rest => exact ⟨rfl, rfl⟩
  · intro hlt
    have hf : ¬ w.is_full = true := by
      simp only [Window.is_full, hm, beq_iff_eq]
      omega
    unfold Window.on_tick
    rw [if_neg hf]
    exact ⟨rfl, rfl⟩

/-- Witness for C7 at capacity 2: a fed window stays within bound, a full
window evicts its oldest element, a non-full window returns None. -/
theorem window_capacity_and_eviction_witness :
    (1 : ℕ) ≤ 2 ∧ (Window.mk 2 [5, 6]).maxlen = 2
  ∧ (((Window.empty 2).feed [1, 2, 3]).data.length ≤ 2
    ∧ ((Window.mk 2 [5, 6]).data.length = 2 →
        ((Window.mk 2 [5, 6]).on_tick 7).1 = Except.ok (Window.mk 2 [5, 6]).data.head?
        ∧ (((Window.mk 2 [5, 6]).on_tick 7).2).data = (Window.mk 2 [5, 6]).data.tail ++ [7])
    ∧ ((Window.mk 2 [5, 6]).data.length < 2 →
        ((Window.mk 2 [5, 6]).on_tick 7).1 = Except.ok none
        ∧ (((Window.mk 2 [5, 6]).on_tick 7).2).data = (Window.mk 2 [5, 6]).data ++ [7])) :=
  ⟨by norm_num, rfl,
    window_capacity_and_eviction 2 (by norm_num) [1, 2, 3] (Window.mk 2 [5, 6]) 7 rfl⟩

/-- Claim C8: the feature engine returns None on the very first tick, and on
a tick following a non-empty history (written qs ++ [x], so x is the price
immediately before the new price p, hence the oldest of the two prices held
after the push, assumed non-zero so that the ratio is defined) returns the
log of newest/oldest = p/x. -/
theorem logreturn_first_and_later_ticks (lnf : ℚ → ℚ) (qs : List ℚ) (x p : ℚ)
    (hx : x ≠ 0) :
    ((LogReturn.init).on_tick lnf p).1 = Except.ok none
  ∧ ((LogReturn.feed lnf LogReturn.init (qs ++ [x])).on_tick lnf p).1
      = Except.ok (some (npLog lnf (p / x))) := by
  refine ⟨rfl, ?_⟩
  have hP : (LogReturn.feed lnf LogReturn.init (qs ++ [x])).price
      = (Window.empty 2).feed (qs ++ [x]) :=
    LogReturn.feed_price lnf (qs ++ [x]) LogReturn.init
  have hm : (LogReturn.feed lnf LogReturn.init (qs ++ [x])).price.maxlen = 2 := by
    rw [hP]
    exact (Window.feed_inv (qs ++ [x]) (Window.empty 2) (by simp [Window.empty])).1
  have hd := window_shape_after_concat qs x
  rw [← hP] at hd
  rw [LogReturn.on_tick_ready lnf _ p x hm hd, if_neg hx]

/-- Witness for C8: feeding 100 then ticking 110 from a fresh engine yields
None then log(110/100). -/
theorem logreturn_first_and_later_ticks_witness :
    (100 : ℚ) ≠ 0
  ∧ (((LogReturn.init).on_tick lnZero 110).1 = Except.ok none
    ∧ ((LogReturn.feed lnZero LogReturn.init ([] ++ [100])).on_tick lnZero 110).1
        = Except.ok (some (npLog lnZero (110 / 100)))) :=
  ⟨by norm_num, logreturn_first_and_later_ticks lnZero [] 100 110 (by norm_num)⟩

/-- Claim C9: for every exchange behaviour (including one whose close call
raises) and every order, execute attempts market_close and then market_open,
in that order, and itself returns normally -- no exception propagates to its
caller. -/
theorem execute_always_attempts_open_never_raises
    (ex : ExchangeBehavior) (st : BasicTakerStrat) (o : Order) :
    (st.execute ex o).1 = Except.ok ()
  ∧ (st.execute ex o).2.1
      = [ExchCall.market_close st.coin, ExchCall.market_open st.coin o.is_buy o.sz] :=
  ⟨rfl, rfl⟩

/-- Claim C10: create_model reads the configured 'weight' entry for both the
weights and the bias of the constructed model; the configured bias entry is
never read, so two configurations sharing a weight yield the same model. -/
theorem create_model_bias_from_weight (w b b2 : ℚ) :
    create_model (ModelConfig.mk w b) = LinReg.mk w w
  ∧ (create_model (ModelConfig.mk w b)).bias = w
  ∧ create_model (ModelConfig.mk w b) = create_model (ModelConfig.mk w b2) :=
  ⟨rfl, rfl, rfl⟩
